import Mathlib

/-!
Verification of the anchor-assignment nearest-neighbor search and the
pointer-picking ray search of the galactic portfolio application.

The point cloud is a flat buffer of coordinates (the JS `Float32Array`),
modelled here as a list of exact rationals; point `i` occupies slots
`3i, 3i+1, 3i+2`.  The JS sentinel `bestDist = Infinity` is modelled by
`Option ℚ` with `none` standing for infinity (every finite squared
distance compares strictly below it, exactly as in JS where
`d2 < Infinity` always holds).
-/

namespace GalacticPortfolio

/-- A 3D vector with exact rational coordinates (models the JS numbers). -/
structure Vec3 where
  x : ℚ
  y : ℚ
  z : ℚ
deriving DecidableEq, Repr

/-- The flat position buffer: coordinate `k` of the `Float32Array`. -/
abbrev PointBuffer := List ℚ

/-- Read slot `k` of the buffer; out-of-range reads (JS `undefined`/NaN)
are modelled by the default value 0. -/
def getCoord (positions : PointBuffer) (k : ℕ) : ℚ :=
  positions.getD k 0

/-- `positions.length / 3`, the point count of the cloud. -/
def ptCount (positions : PointBuffer) : ℕ :=
  positions.length / 3

/-- `posAttr.getX(i)` / worker `positions[i*3]`. -/
def getX (p : PointBuffer) (i : ℕ) : ℚ := getCoord p (i * 3)

/-- `posAttr.getY(i)` / worker `positions[i*3 + 1]`. -/
def getY (p : PointBuffer) (i : ℕ) : ℚ := getCoord p (i * 3 + 1)

/-- `posAttr.getZ(i)` / worker `positions[i*3 + 2]`. -/
def getZ (p : PointBuffer) (i : ℕ) : ℚ := getCoord p (i * 3 + 2)

/-- Squared Euclidean distance from stored point `i` to a target, the
loop body shared verbatim by `findNearestParticleTo` (script.js) and
`findNearestToTarget` (anchorWorker.js). -/
def distSqTo (p : PointBuffer) (t : Vec3) (i : ℕ) : ℚ :=
  let dx := getX p i - t.x
  let dy := getY p i - t.y
  let dz := getZ p i - t.z
  dx * dx + dy * dy + dz * dz

/-- The running (bestIndex, bestDist) pair of a scan loop; `none`
models the initial `Infinity`. -/
structure ScanState where
  bestIndex : ℕ
  bestDist : Option ℚ
deriving DecidableEq, Repr

/-- One loop iteration: `if (d2 < bestDist) { bestDist = d2; bestIndex = i }`.
Against `Infinity` (`none`) any finite score wins. -/
def scanUpd (f : ℕ → ℚ) (s : ScanState) (i : ℕ) : ScanState :=
  match s.bestDist with
  | none => ⟨i, some (f i)⟩
  | some b => if f i < b then ⟨i, some (f i)⟩ else s

/-- Run the scan loop over a list of candidate indices. -/
def scanFold (f : ℕ → ℚ) (s : ScanState) (l : List ℕ) : ScanState :=
  l.foldl (scanUpd f) s

/-- The indices visited by `for (let i = 0; i < count; i += step)`:
`0, step, 2*step, ...` while below `count`. -/
def sampledIndices (n step : ℕ) : List ℕ :=
  (List.range ((n + step - 1) / step)).map (· * step)

/-- The refinement window `[max(0, b - radius), min(count - 1, b + radius)]`
visited at stride 1.  For `count = 0` the JS upper bound is `-1` and the
loop body never runs, hence the empty list. -/
def refineWindow (count b radius : ℕ) : List ℕ :=
  if count = 0 then []
  else List.range' (b - radius) (min (count - 1) (b + radius) + 1 - (b - radius))

/-- Phase 1 of the target search: the coarse scan at the given stride
(script.js lines 230-239, anchorWorker.js lines 19-29). -/
def coarseNearestScan (positions : PointBuffer) (t : Vec3) (step : ℕ) : ScanState :=
  scanFold (distSqTo positions t) ⟨0, none⟩ (sampledIndices (ptCount positions) step)

/-- Result shape posted back by the worker: `{index, x, y, z}`. -/
structure AnchorResult where
  index : ℕ
  x : ℚ
  y : ℚ
  z : ℚ
deriving DecidableEq, Repr

/-- `findNearestToTarget` from anchorWorker.js: coarse scan at stride
`step`, then, when `step > 1`, a stride-1 rescan of the window of radius
`step * 4` around the coarse best index, then read the best point back. -/
def findNearestToTarget (positions : PointBuffer) (step : ℕ) (t : Vec3) : AnchorResult :=
  let count := ptCount positions
  let s1 := coarseNearestScan positions t step
  let s2 := if 1 < step then
      scanFold (distSqTo positions t) s1 (refineWindow count s1.bestIndex (step * 4))
    else s1
  ⟨s2.bestIndex, getX positions s2.bestIndex, getY positions s2.bestIndex,
    getZ positions s2.bestIndex⟩

/-- Result shape of the main-thread search: `{index, position}`. -/
structure NearestResult where
  index : ℕ
  position : Vec3
deriving DecidableEq, Repr

/-- `Math.max(1, Math.floor(count / 100000))`, the stride the main
thread uses itself and also passes to the worker. -/
def defaultStep (count : ℕ) : ℕ :=
  max 1 (count / 100000)

/-- `findNearestParticleTo` from script.js: same two-phase search as the
worker, with the stride derived from the point count. -/
def findNearestParticleTo (positions : PointBuffer) (t : Vec3) : NearestResult :=
  let count := ptCount positions
  let step := defaultStep count
  let s1 := coarseNearestScan positions t step
  let s2 := if 1 < step then
      scanFold (distSqTo positions t) s1 (refineWindow count s1.bestIndex (step * 4))
    else s1
  ⟨s2.bestIndex, ⟨getX positions s2.bestIndex, getY positions s2.bestIndex,
    getZ positions s2.bestIndex⟩⟩

/-- Squared perpendicular distance of stored point `i` to the ray
`origin + t * dir`: the body of both loops of `findNearestParticleToRay`. -/
def perpDistSq (positions : PointBuffer) (origin dir : Vec3) (i : ℕ) : ℚ :=
  let px := getX positions i
  let py := getY positions i
  let pz := getZ positions i
  let vx := px - origin.x
  let vy := py - origin.y
  let vz := pz - origin.z
  let t := vx * dir.x + vy * dir.y + vz * dir.z
  let cx := origin.x + dir.x * t
  let cy := origin.y + dir.y * t
  let cz := origin.z + dir.z * t
  let dx := px - cx
  let dy := py - cy
  let dz := pz - cz
  dx * dx + dy * dy + dz * dz

/-- Phase 1 of the ray search (script.js lines 355-378). -/
def coarseRayScan (positions : PointBuffer) (origin dir : Vec3) (sampleStep : ℕ) : ScanState :=
  scanFold (perpDistSq positions origin dir) ⟨0, none⟩
    (sampledIndices (ptCount positions) sampleStep)

/-- Ray pick result `{index, position, perpDist2}`. -/
structure RayResult where
  index : ℕ
  position : Vec3
  perpDist2 : ℚ
deriving DecidableEq, Repr

/-- `findNearestParticleToRay` from script.js.  `bestIndex === -1`
(nothing scanned) is exactly `bestDist = none` here; the cutoff test
`bestScore > maxPerpDist * maxPerpDist` runs before the refinement pass,
which rescans the window of radius `max(sampleStep*6, 64)` at stride 1. -/
def findNearestParticleToRay (positions : PointBuffer) (origin dir : Vec3)
    (sampleStep : ℕ) (maxPerpDist : ℚ) : Option RayResult :=
  let count := ptCount positions
  let s1 := coarseRayScan positions origin dir sampleStep
  match s1.bestDist with
  | none => none
  | some bestScore =>
    if maxPerpDist * maxPerpDist < bestScore then none
    else
      let radius := max (sampleStep * 6) 64
      let s2 := scanFold (perpDistSq positions origin dir) s1
        (refineWindow count s1.bestIndex radius)
      some ⟨s2.bestIndex, ⟨getX positions s2.bestIndex, getY positions s2.bestIndex,
        getZ positions s2.bestIndex⟩, s2.bestDist.getD bestScore⟩

/-- The message the main thread posts to the worker:
`{positions, targets, step}`. -/
structure WorkerMsgIn where
  positions : PointBuffer
  targets : List Vec3
  step : ℕ
deriving Repr

/-- The worker's `onmessage` handler: read `data.step || 1`, then map
`findNearestToTarget` over the targets, producing the `anchors` array. -/
def workerOnMessage (m : WorkerMsgIn) : List AnchorResult :=
  let step := if m.step = 0 then 1 else m.step
  m.targets.map (fun t => findNearestToTarget m.positions step t)

/-! ### Generic facts about the scan loop -/

theorem scanFold_none_cons (f : ℕ → ℚ) (b0 a : ℕ) (l : List ℕ) :
    scanFold f ⟨b0, none⟩ (a :: l) = scanFold f ⟨a, some (f a)⟩ l := rfl

/-- Characterisation of the scan loop started from a finite best score:
either nothing beat the incumbent, or the final best is the first
candidate of the list realising the (strictly improving) minimum. -/
theorem scanFold_some_spec (f : ℕ → ℚ) (l : List ℕ) : ∀ (b0 : ℕ) (d0 : ℚ),
    (scanFold f ⟨b0, some d0⟩ l = ⟨b0, some d0⟩ ∧ ∀ i ∈ l, d0 ≤ f i) ∨
    (∃ b l1 l2, l = l1 ++ b :: l2 ∧
      scanFold f ⟨b0, some d0⟩ l = ⟨b, some (f b)⟩ ∧ f b < d0 ∧
      (∀ i ∈ l1, f b < f i) ∧ (∀ i ∈ l2, f b ≤ f i)) := by
  induction l with
  | nil =>
    intro b0 d0
    exact Or.inl ⟨rfl, by simp⟩
  | cons a l ih =>
    intro b0 d0
    by_cases h : f a < d0
    · have hstep : scanFold f ⟨b0, some d0⟩ (a :: l) = scanFold f ⟨a, some (f a)⟩ l := by
        simp [scanFold, scanUpd, h]
      rcases ih a (f a) with ⟨heq, hall⟩ | ⟨b, l1, l2, hl, heq, hlt, h1, h2⟩
      · exact Or.inr ⟨a, [], l, by simp, by rw [hstep, heq], h, by simp, hall⟩
      · refine Or.inr ⟨b, a :: l1, l2, by simp [hl], by rw [hstep, heq],
          lt_trans hlt h, ?_, h2⟩
        intro i hi
        rcases List.mem_cons.mp hi with rfl | hi
        · exact hlt
        · exact h1 i hi
    · have hstep : scanFold f ⟨b0, some d0⟩ (a :: l) = scanFold f ⟨b0, some d0⟩ l := by
        simp [scanFold, scanUpd, h]
      rcases ih b0 d0 with ⟨heq, hall⟩ | ⟨b, l1, l2, hl, heq, hlt, h1, h2⟩
      · refine Or.inl ⟨by rw [hstep, heq], ?_⟩
        intro i hi
        rcases List.mem_cons.mp hi with rfl | hi
        · exact le_of_not_lt h
        · exact hall i hi
      · refine Or.inr ⟨b, a :: l1, l2, by simp [hl], by rw [hstep, heq], hlt, ?_, h2⟩
        intro i hi
        rcases List.mem_cons.mp hi with rfl | hi
        · exact lt_of_lt_of_le hlt (le_of_not_lt h)
        · exact h1 i hi

/-- The scan loop started from `Infinity` on a non-empty candidate list
lands on the first candidate realising the minimum: everything scanned
before it is strictly worse, everything after it no better. -/
theorem scanFold_none_spec (f : ℕ → ℚ) (l : List ℕ) (hl : l ≠ []) (b0 : ℕ) :
    ∃ b l1 l2, l = l1 ++ b :: l2 ∧
      scanFold f ⟨b0, none⟩ l = ⟨b, some (f b)⟩ ∧
      (∀ i ∈ l1, f b < f i) ∧ (∀ i ∈ l2, f b ≤ f i) := by
  cases l with
  | nil => exact absurd rfl hl
  | cons a l =>
    rw [scanFold_none_cons]
    rcases scanFold_some_spec f l a (f a) with ⟨heq, hall⟩ |
      ⟨b, l1, l2, hl', heq, hlt, h1, h2⟩
    · exact ⟨a, [], l, by simp, heq, by simp, hall⟩
    · refine ⟨b, a :: l1, l2, by simp [hl'], heq, ?_, h2⟩
      intro i hi
      rcases List.mem_cons.mp hi with rfl | hi
      · exact hlt
      · exact h1 i hi

/-! ### Facts about the candidate index lists -/

theorem sampledIndices_one (n : ℕ) : sampledIndices n 1 = List.range n := by
  simp [sampledIndices]

theorem sampledIndices_zero (step : ℕ) : sampledIndices 0 step = [] := by
  rcases Nat.eq_zero_or_pos step with rfl | hs
  · simp [sampledIndices]
  · have h : (step - 1) / step = 0 := Nat.div_eq_of_lt (by omega)
    simp [sampledIndices, h]

theorem sampledIndices_lt (n step : ℕ) (hs : 0 < step) :
    ∀ i ∈ sampledIndices n step, i < n := by
  intro i hi
  simp only [sampledIndices, List.mem_map, List.mem_range] at hi
  obtain ⟨j, hj, rfl⟩ := hi
  have h2 : (j + 1) * step ≤ n + step - 1 := (Nat.le_div_iff_mul_le hs).mp hj
  have h3 : j * step + step ≤ n + step - 1 := by rw [Nat.succ_mul] at h2; omega
  set m := j * step with hm
  omega

theorem sampledIndices_ne_nil (n step : ℕ) (hs : 0 < step) (hn : 0 < n) :
    sampledIndices n step ≠ [] := by
  have h1 : step ≤ n + step - 1 := by omega
  have h2 : 1 ≤ (n + step - 1) / step := (Nat.one_le_div_iff hs).mpr h1
  simp only [sampledIndices, ne_eq, List.map_eq_nil_iff, List.range_eq_nil]
  omega

theorem refineWindow_lt (count b radius : ℕ) :
    ∀ i ∈ refineWindow count b radius, i < count := by
  intro i hi
  unfold refineWindow at hi
  split at hi
  · simp at hi
  · rw [List.mem_range'_1] at hi
    rename_i hc
    have hm : min (count - 1) (b + radius) ≤ count - 1 := Nat.min_le_left _ _
    omega

theorem mem_refineWindow (count b radius i : ℕ) (hc : count ≠ 0)
    (h1 : b - radius ≤ i) (h2 : i ≤ min (count - 1) (b + radius)) :
    i ∈ refineWindow count b radius := by
  unfold refineWindow
  rw [if_neg hc, List.mem_range'_1]
  omega

/-! ### Unfolding shapes of the target search -/

theorem findNearestToTarget_coarse (positions : PointBuffer) (t : Vec3) (step : ℕ)
    (hstep : ¬ 1 < step) :
    findNearestToTarget positions step t =
      ⟨(coarseNearestScan positions t step).bestIndex,
        getX positions (coarseNearestScan positions t step).bestIndex,
        getY positions (coarseNearestScan positions t step).bestIndex,
        getZ positions (coarseNearestScan positions t step).bestIndex⟩ := by
  simp [findNearestToTarget, hstep]

theorem findNearestToTarget_refined (positions : PointBuffer) (t : Vec3) (step : ℕ)
    (hstep : 1 < step) :
    findNearestToTarget positions step t =
      ⟨(scanFold (distSqTo positions t) (coarseNearestScan positions t step)
          (refineWindow (ptCount positions)
            (coarseNearestScan positions t step).bestIndex (step * 4))).bestIndex,
        getX positions (scanFold (distSqTo positions t) (coarseNearestScan positions t step)
          (refineWindow (ptCount positions)
            (coarseNearestScan positions t step).bestIndex (step * 4))).bestIndex,
        getY positions (scanFold (distSqTo positions t) (coarseNearestScan positions t step)
          (refineWindow (ptCount positions)
            (coarseNearestScan positions t step).bestIndex (step * 4))).bestIndex,
        getZ positions (scanFold (distSqTo positions t) (coarseNearestScan positions t step)
          (refineWindow (ptCount positions)
            (coarseNearestScan positions t step).bestIndex (step * 4))).bestIndex⟩ := by
  simp [findNearestToTarget, hstep]

/-! ### Unfolding shapes of the ray search -/

theorem findNearestParticleToRay_noneScan (positions : PointBuffer) (origin dir : Vec3)
    (sampleStep : ℕ) (maxPerpDist : ℚ)
    (h : (coarseRayScan positions origin dir sampleStep).bestDist = none) :
    findNearestParticleToRay positions origin dir sampleStep maxPerpDist = none := by
  simp [findNearestParticleToRay, h]

theorem findNearestParticleToRay_cut (positions : PointBuffer) (origin dir : Vec3)
    (sampleStep : ℕ) (maxPerpDist : ℚ) (d : ℚ)
    (h : (coarseRayScan positions origin dir sampleStep).bestDist = some d)
    (hcut : maxPerpDist * maxPerpDist < d) :
    findNearestParticleToRay positions origin dir sampleStep maxPerpDist = none := by
  simp only [findNearestParticleToRay, h]
  rw [if_pos hcut]

theorem findNearestParticleToRay_keep (positions : PointBuffer) (origin dir : Vec3)
    (sampleStep : ℕ) (maxPerpDist : ℚ) (d : ℚ)
    (h : (coarseRayScan positions origin dir sampleStep).bestDist = some d)
    (hcut : ¬ maxPerpDist * maxPerpDist < d) :
    findNearestParticleToRay positions origin dir sampleStep maxPerpDist =
      some ⟨(scanFold (perpDistSq positions origin dir)
              (coarseRayScan positions origin dir sampleStep)
              (refineWindow (ptCount positions)
                (coarseRayScan positions origin dir sampleStep).bestIndex
                (max (sampleStep * 6) 64))).bestIndex,
        ⟨getX positions (scanFold (perpDistSq positions origin dir)
              (coarseRayScan positions origin dir sampleStep)
              (refineWindow (ptCount positions)
                (coarseRayScan positions origin dir sampleStep).bestIndex
                (max (sampleStep * 6) 64))).bestIndex,
          getY positions (scanFold (perpDistSq positions origin dir)
              (coarseRayScan positions origin dir sampleStep)
              (refineWindow (ptCount positions)
                (coarseRayScan positions origin dir sampleStep).bestIndex
                (max (sampleStep * 6) 64))).bestIndex,
          getZ positions (scanFold (perpDistSq positions origin dir)
              (coarseRayScan positions origin dir sampleStep)
              (refineWindow (ptCount positions)
                (coarseRayScan positions origin dir sampleStep).bestIndex
                (max (sampleStep * 6) 64))).bestIndex⟩,
        (scanFold (perpDistSq positions origin dir)
              (coarseRayScan positions origin dir sampleStep)
              (refineWindow (ptCount positions)
                (coarseRayScan positions origin dir sampleStep).bestIndex
                (max (sampleStep * 6) 64))).bestDist.getD d⟩ := by
  simp only [findNearestParticleToRay, h]
  rw [if_neg hcut]

/-- Scanning every index below n from an infinite incumbent returns the
least index attaining the minimum of f: a brute-force first-wins argmin. -/
theorem scanFold_range_least (f : ℕ → ℚ) (n : ℕ) (hn : 0 < n) :
    (scanFold f ⟨0, none⟩ (List.range n)).bestIndex < n ∧
    (∀ j < n, f (scanFold f ⟨0, none⟩ (List.range n)).bestIndex ≤ f j) ∧
    ∀ j < n, f j = f (scanFold f ⟨0, none⟩ (List.range n)).bestIndex →
      (scanFold f ⟨0, none⟩ (List.range n)).bestIndex ≤ j := by
  have hne : List.range n ≠ [] := by
    simp only [ne_eq, List.range_eq_nil]
    omega
  obtain ⟨b, l1, l2, hdec, heq, h1, h2⟩ := scanFold_none_spec f (List.range n) hne 0
  rw [heq]
  dsimp only
  have hpw := List.pairwise_lt_range n
  rw [hdec] at hpw
  obtain ⟨-, hp2, -⟩ := List.pairwise_append.mp hpw
  have hblt : b < n := by
    rw [← List.mem_range, hdec]
    exact List.mem_append_right _ (List.mem_cons_self _ _)
  refine ⟨hblt, ?_, ?_⟩
  · intro j hj
    have hjmem : j ∈ l1 ++ b :: l2 := by
      rw [← hdec]
      exact List.mem_range.mpr hj
    rcases List.mem_append.mp hjmem with hj1 | hj2
    · exact le_of_lt (h1 j hj1)
    · rcases List.mem_cons.mp hj2 with rfl | hj2
      · exact le_refl _
      · exact h2 j hj2
  · intro j hj hfeq
    have hjmem : j ∈ l1 ++ b :: l2 := by
      rw [← hdec]
      exact List.mem_range.mpr hj
    rcases List.mem_append.mp hjmem with hj1 | hj2
    · exact absurd hfeq (ne_of_gt (h1 j hj1))
    · rcases List.mem_cons.mp hj2 with rfl | hj2
      · exact le_refl _
      · exact le_of_lt (List.rel_of_pairwise_cons hp2 hj2)

/-- The stride-1 target search is the brute-force scan over range N. -/
theorem findNearestToTarget_step1_index (positions : PointBuffer) (t : Vec3) :
    (findNearestToTarget positions 1 t).index =
      (scanFold (distSqTo positions t) ⟨0, none⟩
        (List.range (ptCount positions))).bestIndex := by
  rw [findNearestToTarget_coarse positions t 1 (by omega)]
  dsimp only
  unfold coarseNearestScan
  rw [sampledIndices_one]

/-! ### Claim theorems -/

/-- Claim C1: for every non-empty point cloud and every target, the
target-based nearest search invoked with stride 1 returns the index of
the exact global minimum-squared-Euclidean-distance point, exactly as a
brute-force scan over all N points would: the returned index is valid,
attains the global minimum, and is the first (smallest) index doing so. -/
theorem targetSearch_step1_equals_bruteForce (positions : PointBuffer) (t : Vec3)
    (h : 0 < ptCount positions) :
    (findNearestToTarget positions 1 t).index < ptCount positions ∧
    (∀ j < ptCount positions,
      distSqTo positions t (findNearestToTarget positions 1 t).index ≤
        distSqTo positions t j) ∧
    ∀ j < ptCount positions,
      distSqTo positions t j =
        distSqTo positions t (findNearestToTarget positions 1 t).index →
      (findNearestToTarget positions 1 t).index ≤ j := by
  rw [findNearestToTarget_step1_index]
  exact scanFold_range_least (distSqTo positions t) (ptCount positions) h

/-- Witness for C1 on a concrete two-point cloud. -/
theorem targetSearch_step1_equals_bruteForce_witness :
    0 < ptCount [1, 0, 0, 2, 0, 0] ∧
    ((findNearestToTarget [1, 0, 0, 2, 0, 0] 1 ⟨2, 0, 0⟩).index <
        ptCount [1, 0, 0, 2, 0, 0] ∧
      (∀ j < ptCount [1, 0, 0, 2, 0, 0],
        distSqTo [1, 0, 0, 2, 0, 0] ⟨2, 0, 0⟩
            (findNearestToTarget [1, 0, 0, 2, 0, 0] 1 ⟨2, 0, 0⟩).index ≤
          distSqTo [1, 0, 0, 2, 0, 0] ⟨2, 0, 0⟩ j) ∧
      ∀ j < ptCount [1, 0, 0, 2, 0, 0],
        distSqTo [1, 0, 0, 2, 0, 0] ⟨2, 0, 0⟩ j =
          distSqTo [1, 0, 0, 2, 0, 0] ⟨2, 0, 0⟩
            (findNearestToTarget [1, 0, 0, 2, 0, 0] 1 ⟨2, 0, 0⟩).index →
        (findNearestToTarget [1, 0, 0, 2, 0, 0] 1 ⟨2, 0, 0⟩).index ≤ j) :=
  ⟨by norm_num [ptCount],
    targetSearch_step1_equals_bruteForce [1, 0, 0, 2, 0, 0] ⟨2, 0, 0⟩
      (by norm_num [ptCount])⟩

/-- Claim C2: for stride greater than 1, if the unique globally nearest
point's index lies within plus-or-minus step*4 of the index found by the
phase-1 coarse scan, the search returns exactly that point's index and
stored position. -/
theorem targetSearch_refinement_exact (positions : PointBuffer) (t : Vec3)
    (step istar : ℕ) (hstep : 1 < step) (hcount : 0 < ptCount positions)
    (histar : istar < ptCount positions)
    (hmin : ∀ j < ptCount positions,
      distSqTo positions t istar ≤ distSqTo positions t j)
    (huniq : ∀ j < ptCount positions,
      distSqTo positions t j = distSqTo positions t istar → j = istar)
    (hwin1 : istar ≤ (coarseNearestScan positions t step).bestIndex + step * 4)
    (hwin2 : (coarseNearestScan positions t step).bestIndex ≤ istar + step * 4) :
    findNearestToTarget positions step t =
      ⟨istar, getX positions istar, getY positions istar, getZ positions istar⟩ := by
  have hne : sampledIndices (ptCount positions) step ≠ [] :=
    sampledIndices_ne_nil _ _ (by omega) hcount
  obtain ⟨b, l1, l2, hdec, heq, h1, h2⟩ :=
    scanFold_none_spec (distSqTo positions t) _ hne 0
  have hcs : coarseNearestScan positions t step = ⟨b, some (distSqTo positions t b)⟩ := heq
  have hblt : b < ptCount positions := by
    apply sampledIndices_lt (ptCount positions) step (by omega)
    rw [hdec]
    exact List.mem_append_right _ (List.mem_cons_self _ _)
  rw [hcs] at hwin1 hwin2
  have histarmem : istar ∈ refineWindow (ptCount positions) b (step * 4) := by
    apply mem_refineWindow _ _ _ _ (by omega)
    · simp at hwin2
      omega
    · simp at hwin1
      omega
  rw [findNearestToTarget_refined positions t step hstep, hcs]
  dsimp only
  rcases scanFold_some_spec (distSqTo positions t)
      (refineWindow (ptCount positions) b (step * 4)) b (distSqTo positions t b) with
    ⟨heq2, hall⟩ | ⟨b2, m1, m2, hdec2, heq2, hlt2, g1, g2⟩
  · have hfb : distSqTo positions t b = distSqTo positions t istar :=
      le_antisymm (hall istar histarmem) (hmin b hblt)
    have hbi : b = istar := huniq b hblt hfb
    rw [heq2]
    dsimp only
    rw [hbi]
  · have hb2lt : b2 < ptCount positions := by
      apply refineWindow_lt
      rw [hdec2]
      exact List.mem_append_right _ (List.mem_cons_self _ _)
    have histarmem2 : istar ∈ m1 ++ b2 :: m2 := by
      rw [← hdec2]
      exact histarmem
    have hle : distSqTo positions t b2 ≤ distSqTo positions t istar := by
      rcases List.mem_append.mp histarmem2 with hi1 | hi2
      · exact le_of_lt (g1 istar hi1)
      · rcases List.mem_cons.mp hi2 with h' | hi2
        · rw [h']
        · exact g2 istar hi2
    have hf2 : distSqTo positions t b2 = distSqTo positions t istar :=
      le_antisymm hle (hmin b2 hb2lt)
    have hbi : b2 = istar := huniq b2 hb2lt hf2
    rw [heq2]
    dsimp only
    rw [hbi]

/-- Witness for C2: three points, stride 2; the unique nearest point has
index 1, two indices away from the coarse best index 0. -/
theorem targetSearch_refinement_exact_witness :
    (1 < 2 ∧ 0 < ptCount [0, 0, 0, 1, 0, 0, 5, 0, 0] ∧
      1 < ptCount [0, 0, 0, 1, 0, 0, 5, 0, 0] ∧
      (∀ j < ptCount [0, 0, 0, 1, 0, 0, 5, 0, 0],
        distSqTo [0, 0, 0, 1, 0, 0, 5, 0, 0] ⟨1, 0, 0⟩ 1 ≤
          distSqTo [0, 0, 0, 1, 0, 0, 5, 0, 0] ⟨1, 0, 0⟩ j) ∧
      (∀ j < ptCount [0, 0, 0, 1, 0, 0, 5, 0, 0],
        distSqTo [0, 0, 0, 1, 0, 0, 5, 0, 0] ⟨1, 0, 0⟩ j =
          distSqTo [0, 0, 0, 1, 0, 0, 5, 0, 0] ⟨1, 0, 0⟩ 1 → j = 1) ∧
      1 ≤ (coarseNearestScan [0, 0, 0, 1, 0, 0, 5, 0, 0] ⟨1, 0, 0⟩ 2).bestIndex + 2 * 4 ∧
      (coarseNearestScan [0, 0, 0, 1, 0, 0, 5, 0, 0] ⟨1, 0, 0⟩ 2).bestIndex ≤ 1 + 2 * 4) ∧
    findNearestToTarget [0, 0, 0, 1, 0, 0, 5, 0, 0] 2 ⟨1, 0, 0⟩ =
      ⟨1, getX [0, 0, 0, 1, 0, 0, 5, 0, 0] 1, getY [0, 0, 0, 1, 0, 0, 5, 0, 0] 1,
        getZ [0, 0, 0, 1, 0, 0, 5, 0, 0] 1⟩ := by
  have e1 : (1 : ℕ) < 2 := by norm_num
  have e2 : 0 < ptCount [(0 : ℚ), 0, 0, 1, 0, 0, 5, 0, 0] := by norm_num [ptCount]
  have e3 : 1 < ptCount [(0 : ℚ), 0, 0, 1, 0, 0, 5, 0, 0] := by norm_num [ptCount]
  have e4 : ∀ j < ptCount [(0 : ℚ), 0, 0, 1, 0, 0, 5, 0, 0],
      distSqTo [0, 0, 0, 1, 0, 0, 5, 0, 0] ⟨1, 0, 0⟩ 1 ≤
        distSqTo [0, 0, 0, 1, 0, 0, 5, 0, 0] ⟨1, 0, 0⟩ j := by
    intro j hj
    norm_num [ptCount] at hj
    interval_cases j <;> norm_num [distSqTo, getX, getY, getZ, getCoord]
  have e5 : ∀ j < ptCount [(0 : ℚ), 0, 0, 1, 0, 0, 5, 0, 0],
      distSqTo [0, 0, 0, 1, 0, 0, 5, 0, 0] ⟨1, 0, 0⟩ j =
        distSqTo [0, 0, 0, 1, 0, 0, 5, 0, 0] ⟨1, 0, 0⟩ 1 → j = 1 := by
    intro j hj
    norm_num [ptCount] at hj
    interval_cases j <;> norm_num [distSqTo, getX, getY, getZ, getCoord]
  have e6 : (coarseNearestScan [(0 : ℚ), 0, 0, 1, 0, 0, 5, 0, 0] ⟨1, 0, 0⟩ 2).bestIndex = 0 := by
    norm_num [coarseNearestScan, scanFold, scanUpd, sampledIndices, List.range_succ,
      distSqTo, getX, getY, getZ, getCoord, ptCount]
  refine ⟨⟨e1, e2, e3, e4, e5, by rw [e6]; norm_num, by rw [e6]; norm_num⟩, ?_⟩
  exact targetSearch_refinement_exact [0, 0, 0, 1, 0, 0, 5, 0, 0] ⟨1, 0, 0⟩ 2 1
    e1 e2 e3 e4 e5 (by rw [e6]; norm_num) (by rw [e6]; norm_num)

/-- Claim C4 evaluation at the failing input: on the empty point cloud
the target-based search does not fail fast; the loops never execute, so
it silently returns index 0 while the tracked best distance is still the
initial Infinity, instead of signalling InvalidInput. -/
theorem targetSearch_empty_silent_index0 (t : Vec3) :
    (findNearestParticleTo [] t).index = 0 ∧
    (coarseNearestScan [] t (defaultStep (ptCount ([] : PointBuffer)))).bestDist = none :=
  ⟨rfl, rfl⟩

/-- Claim C5: the worker's anchors array is positionally aligned with
the input targets: it has the same length and entry i is precisely the
nearest-point search result for target i. -/
theorem workerResults_positionally_aligned (m : WorkerMsgIn) (i : ℕ) :
    (workerOnMessage m).length = m.targets.length ∧
    (workerOnMessage m)[i]? = (m.targets[i]?).map
      (fun t => findNearestToTarget m.positions (if m.step = 0 then 1 else m.step) t) := by
  constructor
  · simp [workerOnMessage]
  · simp [workerOnMessage]

/-- Claim C6: the worker search and the main-thread search are the same
function: with the stride the dispatcher passes, they agree on index and
every position coordinate, for a single target and across a whole
message's target list. -/
theorem workerSearch_equals_mainThread (positions : PointBuffer) (targets : List Vec3)
    (t : Vec3) (i : ℕ) :
    ((findNearestToTarget positions (defaultStep (ptCount positions)) t).index =
        (findNearestParticleTo positions t).index ∧
      (findNearestToTarget positions (defaultStep (ptCount positions)) t).x =
        (findNearestParticleTo positions t).position.x ∧
      (findNearestToTarget positions (defaultStep (ptCount positions)) t).y =
        (findNearestParticleTo positions t).position.y ∧
      (findNearestToTarget positions (defaultStep (ptCount positions)) t).z =
        (findNearestParticleTo positions t).position.z) ∧
    (workerOnMessage ⟨positions, targets, defaultStep (ptCount positions)⟩)[i]? =
      (targets[i]?).map (fun t =>
        AnchorResult.mk (findNearestParticleTo positions t).index
          (findNearestParticleTo positions t).position.x
          (findNearestParticleTo positions t).position.y
          (findNearestParticleTo positions t).position.z) := by
  have hstep : (if defaultStep (ptCount positions) = 0 then 1
      else defaultStep (ptCount positions)) = defaultStep (ptCount positions) := by
    have h : defaultStep (ptCount positions) ≠ 0 := by
      unfold defaultStep
      omega
    rw [if_neg h]
  refine ⟨⟨rfl, rfl, rfl, rfl⟩, ?_⟩
  simp only [workerOnMessage, hstep, List.getElem?_map]
  cases targets[i]? with
  | none => rfl
  | some t0 => rfl

/-- Claim C8: on the cloud [(0,0,0), (10,0,0), (5,5,0)] with target
(9,1,0) the search (whose derived stride is 1) returns index 1, the
point (10,0,0), whose squared distance to the target is 2. -/
theorem scenario_cloud3_expected_index1 :
    findNearestParticleTo [0, 0, 0, 10, 0, 0, 5, 5, 0] ⟨9, 1, 0⟩ = ⟨1, ⟨10, 0, 0⟩⟩ ∧
    distSqTo [0, 0, 0, 10, 0, 0, 5, 5, 0] ⟨9, 1, 0⟩ 1 = 2 := by
  norm_num [findNearestParticleTo, defaultStep, ptCount, coarseNearestScan, scanFold,
    sampledIndices, List.range_succ, scanUpd, distSqTo, getX, getY, getZ, getCoord,
    refineWindow]

/-- Claim C3: the ray search's distance cutoff is a post-filter: an
empty cloud yields null, a coarse best squared perpendicular distance
above maxPerpDist^2 yields null, and in particular a ray whose closest
approach to every point exceeds the cutoff yields null. -/
theorem raySearch_cutoff_postfilter (positions : PointBuffer) (origin dir : Vec3)
    (sampleStep : ℕ) (maxPerpDist : ℚ) :
    (ptCount positions = 0 →
      findNearestParticleToRay positions origin dir sampleStep maxPerpDist = none) ∧
    (∀ d, (coarseRayScan positions origin dir sampleStep).bestDist = some d →
      maxPerpDist * maxPerpDist < d →
      findNearestParticleToRay positions origin dir sampleStep maxPerpDist = none) ∧
    (0 < sampleStep →
      (∀ i < ptCount positions,
        maxPerpDist * maxPerpDist < perpDistSq positions origin dir i) →
      findNearestParticleToRay positions origin dir sampleStep maxPerpDist = none) := by
  have hempty : ptCount positions = 0 →
      findNearestParticleToRay positions origin dir sampleStep maxPerpDist = none := by
    intro h0
    apply findNearestParticleToRay_noneScan
    unfold coarseRayScan
    rw [h0, sampledIndices_zero]
    rfl
  refine ⟨hempty, ?_, ?_⟩
  · intro d h hcut
    exact findNearestParticleToRay_cut _ _ _ _ _ d h hcut
  · intro hs hall
    rcases Nat.eq_zero_or_pos (ptCount positions) with h0 | hpos
    · exact hempty h0
    · have hne := sampledIndices_ne_nil (ptCount positions) sampleStep hs hpos
      obtain ⟨b, l1, l2, hdec, heq, h1, h2⟩ :=
        scanFold_none_spec (perpDistSq positions origin dir) _ hne 0
      have hb : b < ptCount positions := by
        apply sampledIndices_lt (ptCount positions) sampleStep hs
        rw [hdec]
        exact List.mem_append_right _ (List.mem_cons_self _ _)
      apply findNearestParticleToRay_cut _ _ _ _ _ (perpDistSq positions origin dir b)
      · unfold coarseRayScan
        rw [heq]
      · exact hall b hb

/-- Witness for C3: a single point 10 units off a ray through the
origin, cutoff 1: every perpendicular distance exceeds the cutoff and
the pick is rejected. -/
theorem raySearch_cutoff_postfilter_witness :
    (0 < 1 ∧ ∀ i < ptCount [0, 10, 0],
      (1 : ℚ) * 1 < perpDistSq [0, 10, 0] ⟨0, 0, 0⟩ ⟨1, 0, 0⟩ i) ∧
    findNearestParticleToRay [0, 10, 0] ⟨0, 0, 0⟩ ⟨1, 0, 0⟩ 1 1 = none := by
  have h1 : ∀ i < ptCount [(0 : ℚ), 10, 0],
      (1 : ℚ) * 1 < perpDistSq [0, 10, 0] ⟨0, 0, 0⟩ ⟨1, 0, 0⟩ i := by
    intro i hi
    have h0 : i = 0 := by
      norm_num [ptCount] at hi
      omega
    subst h0
    norm_num [perpDistSq, getX, getY, getZ, getCoord]
  exact ⟨⟨one_pos, h1⟩,
    (raySearch_cutoff_postfilter [0, 10, 0] ⟨0, 0, 0⟩ ⟨1, 0, 0⟩ 1 1).2.2 one_pos h1⟩

/-- Claim C9: whenever the ray search returns a result, its
perpDistSquared is at most maxPerpDist^2: the cutoff is checked on the
coarse minimum and refinement only ever lowers the tracked best score. -/
theorem raySearch_result_within_cutoff (positions : PointBuffer) (origin dir : Vec3)
    (sampleStep : ℕ) (maxPerpDist : ℚ) (r : RayResult)
    (h : findNearestParticleToRay positions origin dir sampleStep maxPerpDist = some r) :
    r.perpDist2 ≤ maxPerpDist * maxPerpDist := by
  cases h1 : (coarseRayScan positions origin dir sampleStep).bestDist with
  | none =>
    rw [findNearestParticleToRay_noneScan _ _ _ _ _ h1] at h
    exact absurd h (by simp)
  | some d =>
    by_cases hcut : maxPerpDist * maxPerpDist < d
    · rw [findNearestParticleToRay_cut _ _ _ _ _ d h1 hcut] at h
      exact absurd h (by simp)
    · rw [findNearestParticleToRay_keep _ _ _ _ _ d h1 hcut] at h
      have hr := (Option.some.injEq _ _).mp h
      have hs1 : coarseRayScan positions origin dir sampleStep =
          ⟨(coarseRayScan positions origin dir sampleStep).bestIndex, some d⟩ := by
        rw [← h1]
      rcases scanFold_some_spec (perpDistSq positions origin dir)
          (refineWindow (ptCount positions)
            (coarseRayScan positions origin dir sampleStep).bestIndex
            (max (sampleStep * 6) 64))
          (coarseRayScan positions origin dir sampleStep).bestIndex d with
        ⟨heq2, -⟩ | ⟨b2, m1, m2, -, heq2, hlt2, -, -⟩
      · rw [hs1] at hr
        rw [heq2] at hr
        rw [← hr]
        dsimp only [Option.getD]
        exact le_of_not_lt hcut
      · rw [hs1] at hr
        rw [heq2] at hr
        rw [← hr]
        dsimp only [Option.getD]
        exact le_of_lt (lt_of_lt_of_le hlt2 (le_of_not_lt hcut))

/-- Witness for C9: one point on the ray itself; the search returns it
with perpendicular distance 0, within the cutoff 1. -/
theorem raySearch_result_within_cutoff_witness :
    findNearestParticleToRay [3, 0, 0] ⟨0, 0, 0⟩ ⟨1, 0, 0⟩ 1 1 =
      some ⟨0, ⟨3, 0, 0⟩, 0⟩ ∧
    RayResult.perpDist2 ⟨0, ⟨3, 0, 0⟩, 0⟩ ≤ (1 : ℚ) * 1 := by
  have h : findNearestParticleToRay [3, 0, 0] ⟨0, 0, 0⟩ ⟨1, 0, 0⟩ 1 1 =
      some ⟨0, ⟨3, 0, 0⟩, 0⟩ := by
    norm_num [findNearestParticleToRay, coarseRayScan, scanFold, scanUpd, sampledIndices,
      List.range_succ, perpDistSq, getX, getY, getZ, getCoord, ptCount, refineWindow,
      List.range']
  exact ⟨h, raySearch_result_within_cutoff [3, 0, 0] ⟨0, 0, 0⟩ ⟨1, 0, 0⟩ 1 1 _ h⟩

/-- Claim C10: tie-breaking is deterministic by scan order: in the
coarse phase of both searches the returned index is the first sampled
index attaining the minimal score (everything sampled before it scores
strictly worse, everything after no better, since the comparison is a
strict less-than), and for stride 1 the full target search returns the
smallest index attaining the minimum. -/
theorem strict_lt_tiebreak_first_wins (positions : PointBuffer) (t origin dir : Vec3)
    (step : ℕ) (hs : 0 < step) (hn : 0 < ptCount positions) :
    (∃ b l1 l2, sampledIndices (ptCount positions) step = l1 ++ b :: l2 ∧
      coarseNearestScan positions t step = ⟨b, some (distSqTo positions t b)⟩ ∧
      (∀ i ∈ l1, distSqTo positions t b < distSqTo positions t i) ∧
      (∀ i ∈ l2, distSqTo positions t b ≤ distSqTo positions t i)) ∧
    (∃ b l1 l2, sampledIndices (ptCount positions) step = l1 ++ b :: l2 ∧
      coarseRayScan positions origin dir step =
        ⟨b, some (perpDistSq positions origin dir b)⟩ ∧
      (∀ i ∈ l1, perpDistSq positions origin dir b < perpDistSq positions origin dir i) ∧
      (∀ i ∈ l2, perpDistSq positions origin dir b ≤ perpDistSq positions origin dir i)) ∧
    ∀ j < ptCount positions,
      distSqTo positions t j =
        distSqTo positions t (findNearestToTarget positions 1 t).index →
      (findNearestToTarget positions 1 t).index ≤ j := by
  have hne := sampledIndices_ne_nil (ptCount positions) step hs hn
  refine ⟨?_, ?_, ?_⟩
  · obtain ⟨b, l1, l2, hdec, heq, h1, h2⟩ :=
      scanFold_none_spec (distSqTo positions t) _ hne 0
    exact ⟨b, l1, l2, hdec, heq, h1, h2⟩
  · obtain ⟨b, l1, l2, hdec, heq, h1, h2⟩ :=
      scanFold_none_spec (perpDistSq positions origin dir) _ hne 0
    exact ⟨b, l1, l2, hdec, heq, h1, h2⟩
  · rw [findNearestToTarget_step1_index]
    exact (scanFold_range_least (distSqTo positions t) (ptCount positions) hn).2.2

/-- Witness for C10 on a cloud with two identical points (a tie). -/
theorem strict_lt_tiebreak_first_wins_witness :
    (0 < 1 ∧ 0 < ptCount [4, 0, 0, 4, 0, 0]) ∧
    ((∃ b l1 l2, sampledIndices (ptCount [4, 0, 0, 4, 0, 0]) 1 = l1 ++ b :: l2 ∧
      coarseNearestScan [4, 0, 0, 4, 0, 0] ⟨0, 0, 0⟩ 1 =
        ⟨b, some (distSqTo [4, 0, 0, 4, 0, 0] ⟨0, 0, 0⟩ b)⟩ ∧
      (∀ i ∈ l1, distSqTo [4, 0, 0, 4, 0, 0] ⟨0, 0, 0⟩ b <
        distSqTo [4, 0, 0, 4, 0, 0] ⟨0, 0, 0⟩ i) ∧
      (∀ i ∈ l2, distSqTo [4, 0, 0, 4, 0, 0] ⟨0, 0, 0⟩ b ≤
        distSqTo [4, 0, 0, 4, 0, 0] ⟨0, 0, 0⟩ i)) ∧
    (∃ b l1 l2, sampledIndices (ptCount [4, 0, 0, 4, 0, 0]) 1 = l1 ++ b :: l2 ∧
      coarseRayScan [4, 0, 0, 4, 0, 0] ⟨0, 1, 0⟩ ⟨1, 0, 0⟩ 1 =
        ⟨b, some (perpDistSq [4, 0, 0, 4, 0, 0] ⟨0, 1, 0⟩ ⟨1, 0, 0⟩ b)⟩ ∧
      (∀ i ∈ l1, perpDistSq [4, 0, 0, 4, 0, 0] ⟨0, 1, 0⟩ ⟨1, 0, 0⟩ b <
        perpDistSq [4, 0, 0, 4, 0, 0] ⟨0, 1, 0⟩ ⟨1, 0, 0⟩ i) ∧
      (∀ i ∈ l2, perpDistSq [4, 0, 0, 4, 0, 0] ⟨0, 1, 0⟩ ⟨1, 0, 0⟩ b ≤
        perpDistSq [4, 0, 0, 4, 0, 0] ⟨0, 1, 0⟩ ⟨1, 0, 0⟩ i)) ∧
    ∀ j < ptCount [4, 0, 0, 4, 0, 0],
      distSqTo [4, 0, 0, 4, 0, 0] ⟨0, 0, 0⟩ j =
        distSqTo [4, 0, 0, 4, 0, 0] ⟨0, 0, 0⟩
          (findNearestToTarget [4, 0, 0, 4, 0, 0] 1 ⟨0, 0, 0⟩).index →
      (findNearestToTarget [4, 0, 0, 4, 0, 0] 1 ⟨0, 0, 0⟩).index ≤ j) :=
  ⟨⟨one_pos, by norm_num [ptCount]⟩,
    strict_lt_tiebreak_first_wins [4, 0, 0, 4, 0, 0] ⟨0, 0, 0⟩ ⟨0, 1, 0⟩ ⟨1, 0, 0⟩ 1
      one_pos (by norm_num [ptCount])⟩

/-- A buffer object: an identity plus contents (models an ArrayBuffer
with its Float32Array contents). -/
structure Buffer where
  id : ℕ
  data : PointBuffer
deriving DecidableEq, Repr

/-- The sending side of the offload channel: which buffer ids have been
allocated and which have been detached by a postMessage transfer. -/
structure SenderCtx where
  fresh : ℕ
  detached : List ℕ
deriving DecidableEq, Repr

/-- posAttr.array.slice() wrapped in a new Float32Array: allocate a
fresh buffer holding the same contents. -/
def sliceCopy (ctx : SenderCtx) (b : Buffer) : SenderCtx × Buffer :=
  (⟨ctx.fresh + 1, ctx.detached⟩, ⟨ctx.fresh, b.data⟩)

/-- Listing a buffer in postMessage's transfer list detaches it on the
sending side; its contents move into the message. -/
def transferBuffer (ctx : SenderCtx) (b : Buffer) : SenderCtx × PointBuffer :=
  (⟨ctx.fresh, b.id :: ctx.detached⟩, b.data)

/-- The dispatch in script.js: build positionsCopy from the live
attribute array via slice, then post positions (transferring only the
copy's storage), the targets and the derived step. -/
def dispatchAnchorRequest (ctx : SenderCtx) (live : Buffer) (targets : List Vec3) :
    SenderCtx × WorkerMsgIn :=
  let pc := sliceCopy ctx live
  let tr := transferBuffer pc.1 pc.2
  (tr.1, ⟨tr.2, targets, defaultStep (ptCount live.data)⟩)

/-- Claim C7: dispatching transfers an independent copy of the point
buffer, never the live buffer: the id detached by the transfer is the
freshly allocated copy, the live buffer stays attached (still usable for
rendering and ray picking), and the message still carries the full
contents of the live buffer. -/
theorem dispatch_transfers_copy_not_live (ctx : SenderCtx) (live : Buffer)
    (targets : List Vec3) (hid : live.id < ctx.fresh)
    (hdet : live.id ∉ ctx.detached) :
    (dispatchAnchorRequest ctx live targets).1.detached = ctx.fresh :: ctx.detached ∧
    live.id ∉ (dispatchAnchorRequest ctx live targets).1.detached ∧
    (dispatchAnchorRequest ctx live targets).2.positions = live.data := by
  refine ⟨rfl, ?_, rfl⟩
  show live.id ∉ ctx.fresh :: ctx.detached
  simp only [List.mem_cons, not_or]
  exact ⟨by omega, hdet⟩

/-- Witness for C7 on a concrete sender state. -/
theorem dispatch_transfers_copy_not_live_witness :
    ((Buffer.mk 2 [1, 2, 3]).id < (SenderCtx.mk 3 [7]).fresh ∧
      (Buffer.mk 2 [1, 2, 3]).id ∉ (SenderCtx.mk 3 [7]).detached) ∧
    ((dispatchAnchorRequest ⟨3, [7]⟩ ⟨2, [1, 2, 3]⟩ []).1.detached =
        (SenderCtx.mk 3 [7]).fresh :: (SenderCtx.mk 3 [7]).detached ∧
      (Buffer.mk 2 [1, 2, 3]).id ∉ (dispatchAnchorRequest ⟨3, [7]⟩ ⟨2, [1, 2, 3]⟩ []).1.detached ∧
      (dispatchAnchorRequest ⟨3, [7]⟩ ⟨2, [1, 2, 3]⟩ []).2.positions =
        (Buffer.mk 2 [1, 2, 3]).data) :=
  ⟨⟨by decide, by decide⟩,
    dispatch_transfers_copy_not_live ⟨3, [7]⟩ ⟨2, [1, 2, 3]⟩ [] (by decide) (by decide)⟩

end GalacticPortfolio
